import Mathlib

/-!
Shallow embedding of `src/MPC.cpp`, the optimization-problem formulation of a
model-predictive controller for a simulated vehicle.

The source lays the prediction horizon out as one flat real vector of six
state blocks of length `N` (x, y, psi, v, cte, epsi) followed by two actuator
blocks of length `N - 1` (steering `delta`, acceleration `a`).  The functor
`FG_eval::operator()` fills `fg[0]` with the scalar cost and `fg[1 .. 6N]`
with the equality-constraint residuals; `MPC::Solve` builds variable and
constraint bounds, hands everything to the external ipopt solver, and
extracts the commanded actuation plus the predicted `(x, y)` trajectory.

The source fixes `N = 10` in a global; the index offsets are globals computed
from `N` by the arithmetic reproduced below, so every definition here takes
the horizon length as an explicit parameter and the source's configuration is
the instance at `10`.  Real-valued `double` arithmetic is embedded as `ℝ`;
the external solver is opaque (out of scope per the design), so `MPC::Solve`
is embedded as the result-extraction the source performs on the solver's
returned `solve_result`.
-/

/-- Source: `size_t N = 10;` (MPC.cpp line 11), the prediction-horizon length. -/
def N : ℕ := 10

/-- Source: `double dt = 0.1;` (line 12), the timestep duration in seconds. -/
noncomputable def dt : ℝ := 0.1

/-- Source: `const double Lf = 2.67;` (line 24), front-axle distance constant. -/
noncomputable def Lf : ℝ := 2.67

/-- Source: `double ref_v = 100;` (line 38), the reference velocity. -/
noncomputable def ref_v : ℝ := 100

/-- Source: `size_t idxX = 0;` (line 28). -/
def idxX (N : ℕ) : ℕ := 0

/-- Source: `size_t idxY = idxX + N;` (line 29). -/
def idxY (N : ℕ) : ℕ := idxX N + N

/-- Source: `size_t idxPsi = idxY + N;` (line 30). -/
def idxPsi (N : ℕ) : ℕ := idxY N + N

/-- Source: `size_t idxV = idxPsi + N;` (line 31). -/
def idxV (N : ℕ) : ℕ := idxPsi N + N

/-- Source: `size_t idxCTE = idxV + N;` (line 32). -/
def idxCTE (N : ℕ) : ℕ := idxV N + N

/-- Source: `size_t idxEpsi = idxCTE + N;` (line 33). -/
def idxEpsi (N : ℕ) : ℕ := idxCTE N + N

/-- Source: `size_t idxDelta = idxEpsi + N;` (line 34). -/
def idxDelta (N : ℕ) : ℕ := idxEpsi N + N

/-- Source: `size_t idxA = idxDelta + N - 1;` (line 35). -/
def idxA (N : ℕ) : ℕ := idxDelta N + N - 1

theorem idxX_eq (N : ℕ) : idxX N = 0 := rfl

theorem idxY_eq (N : ℕ) : idxY N = N := by
  simp [idxY, idxX]

theorem idxPsi_eq (N : ℕ) : idxPsi N = 2 * N := by
  simp [idxPsi, idxY, idxX]; omega

theorem idxV_eq (N : ℕ) : idxV N = 3 * N := by
  simp [idxV, idxPsi, idxY, idxX]; omega

theorem idxCTE_eq (N : ℕ) : idxCTE N = 4 * N := by
  simp [idxCTE, idxV, idxPsi, idxY, idxX]; omega

theorem idxEpsi_eq (N : ℕ) : idxEpsi N = 5 * N := by
  simp [idxEpsi, idxCTE, idxV, idxPsi, idxY, idxX]; omega

theorem idxDelta_eq (N : ℕ) : idxDelta N = 6 * N := by
  simp [idxDelta, idxEpsi, idxCTE, idxV, idxPsi, idxY, idxX]; omega

theorem idxA_eq (N : ℕ) : idxA N = 7 * N - 1 := by
  simp [idxA, idxDelta, idxEpsi, idxCTE, idxV, idxPsi, idxY, idxX]; omega

/-- Source: `size_t n_vars = N * 6 + (N - 1) * 2;` (line 156). -/
def n_vars (N : ℕ) : ℕ := N * 6 + (N - 1) * 2

/-- Source: `size_t n_constraints = N * 6;` (line 158). -/
def n_constraints (N : ℕ) : ℕ := N * 6

/-- The six state blocks of the flat optimization vector, in the fixed source
order x, y, psi, v, cte, epsi (the comment at MPC.cpp line 52). -/
inductive Block : Type
  | x
  | y
  | psi
  | v
  | cte
  | epsi
deriving DecidableEq

/-- Starting offset of a state block in the flat vector (the globals of
MPC.cpp lines 28-33). -/
def blockIdx (N : ℕ) : Block → ℕ
  | .x => idxX N
  | .y => idxY N
  | .psi => idxPsi N
  | .v => idxV N
  | .cte => idxCTE N
  | .epsi => idxEpsi N

/-- Position of each state block inside the 6-element `state` vector handed to
`MPC::Solve` (`state = (X, Y, Psi, V, CTE, Epsi)`, MPC.cpp lines 142-148). -/
def stateIdx : Block → Fin 6
  | .x => 0
  | .y => 1
  | .psi => 2
  | .v => 3
  | .cte => 4
  | .epsi => 5

/-- Source: the local `delta0` of `FG_eval::operator()` (MPC.cpp lines 100,
103-104): `delta0 = vars[idxDelta + t - 1]`, overwritten for `t > 1` with
`vars[idxDelta + t - 2]` ("because of 100ms of latency use previous
timestep"). -/
def delta0 (N : ℕ) (vars : ℕ → ℝ) (t : ℕ) : ℝ :=
  if 1 < t then vars (idxDelta N + (t - 2)) else vars (idxDelta N + (t - 1))

/-- Source: the local `a0` of `FG_eval::operator()` (MPC.cpp lines 101,
103, 105), with the same latency shift as `delta0`. -/
def a0 (N : ℕ) (vars : ℕ → ℝ) (t : ℕ) : ℝ :=
  if 1 < t then vars (idxA N + (t - 2)) else vars (idxA N + (t - 1))

/-- Source: the local `f0` of `FG_eval::operator()` (MPC.cpp line 111):
`coeffs[0] + coeffs[1]*x0 + coeffs[2]*pow(x0,2) + coeffs[3]*pow(x0,3)`. -/
def f0 (coeffs : ℕ → ℝ) (x0 : ℝ) : ℝ :=
  coeffs 0 + coeffs 1 * x0 + coeffs 2 * x0 ^ 2 + coeffs 3 * x0 ^ 3

/-- Source: the local `psides0` of `FG_eval::operator()` (MPC.cpp line 112):
`atan(coeffs[1] + 2*coeffs[2]*x0 + 3*coeffs[3]*pow(x0,2))`. -/
noncomputable def psides0 (coeffs : ℕ → ℝ) (x0 : ℝ) : ℝ :=
  Real.arctan (coeffs 1 + 2 * coeffs 2 * x0 + 3 * coeffs 3 * x0 ^ 2)

/-- Source: the dynamics-constraint residuals written by the loop of
`FG_eval::operator()` for `t` in `[1, N)` (MPC.cpp lines 91-128).  For block
`b` this is the value stored at `fg[1 + blockIdx b + t]`: the optimization
variable at `t` minus the model-predicted expression built from the variables
at `t - 1` (with the latency-shifted actuators `delta0`, `a0`).  The local
`cte0 = vars[idxCTE + t - 1]` of the source (line 97) is read but never used
in any residual, so it does not appear here. -/
noncomputable def dynResidual (N : ℕ) (coeffs vars : ℕ → ℝ) (b : Block) (t : ℕ) : ℝ :=
  let x0 := vars (idxX N + (t - 1))
  let y0 := vars (idxY N + (t - 1))
  let psi0 := vars (idxPsi N + (t - 1))
  let v0 := vars (idxV N + (t - 1))
  let epsi0 := vars (idxEpsi N + (t - 1))
  match b with
  | .x => vars (idxX N + t) - (x0 + v0 * Real.cos psi0 * dt)
  | .y => vars (idxY N + t) - (y0 + v0 * Real.sin psi0 * dt)
  | .psi => vars (idxPsi N + t) - (psi0 - v0 / Lf * delta0 N vars t * dt)
  | .v => vars (idxV N + t) - (v0 + a0 N vars t * dt)
  | .cte => vars (idxCTE N + t) - ((f0 coeffs x0 - y0) + (v0 * Real.sin epsi0 * dt))
  | .epsi => vars (idxEpsi N + t) - ((psi0 - psides0 coeffs x0) - v0 / Lf * delta0 N vars t * dt)

/-- Source: the constraint part of `fg` as filled by `FG_eval::operator()`:
entry `fg[1 + blockIdx b + t]`.  For `t = 0` the source stores the variable
itself, `fg[1 + idxX] = vars[idxX]` and so on (MPC.cpp lines 84-89); for
`t ≥ 1` it stores the dynamics residual (lines 91-128). -/
noncomputable def fgConstraint (N : ℕ) (coeffs vars : ℕ → ℝ) (b : Block) (t : ℕ) : ℝ :=
  if t = 0 then vars (blockIdx N b) else dynResidual N coeffs vars b t

/-- Source: the cost `fg[0]` accumulated by the three sequential loops of
`FG_eval::operator()` (MPC.cpp lines 53-73), transcribed as left folds over
the same iteration ranges with the same literal weights. -/
noncomputable def cost (N : ℕ) (vars : ℕ → ℝ) : ℝ :=
  (List.range (N - 2)).foldl
    (fun acc t => acc + 1 * (vars (idxDelta N + t + 1) - vars (idxDelta N + t)) ^ 2
      + 1 * (vars (idxA N + t + 1) - vars (idxA N + t)) ^ 2)
    ((List.range (N - 1)).foldl
      (fun acc t => acc + 450 * (vars (idxDelta N + t) * vars (idxV N + t)) ^ 2
        + 20 * vars (idxDelta N + t) ^ 2 + 1 * vars (idxA N + t) ^ 2)
      ((List.range N).foldl
        (fun acc t => acc + 800 * vars (idxCTE N + t) ^ 2 + 800 * vars (idxEpsi N + t) ^ 2
          + 1 * (vars (idxV N + t) - ref_v) ^ 2) 0))

/-- Source: the variable lower bounds of `MPC::Solve` (MPC.cpp lines 174-191):
`-1e23` for every index below `idxDelta`, `-0.436332` (25 degrees in radians)
for the steering indices `[idxDelta, idxA)`, and `-1.0` from `idxA` on. -/
noncomputable def vars_lowerbound (N : ℕ) (i : ℕ) : ℝ :=
  if i < idxDelta N then -1e23
  else if i < idxA N then -0.436332
  else -1

/-- Source: the variable upper bounds of `MPC::Solve` (MPC.cpp lines 174-191). -/
noncomputable def vars_upperbound (N : ℕ) (i : ℕ) : ℝ :=
  if i < idxDelta N then 1e23
  else if i < idxA N then 0.436332
  else 1

/-- Source: the constraint lower bounds of `MPC::Solve` (MPC.cpp lines
195-207): zero everywhere, overwritten with the corresponding component of
the supplied `state` at the six `t = 0` indices `idxX, …, idxEpsi`.  For
`N ≥ 1` those six offsets are pairwise distinct, so the if-chain reproduces
the source's write-then-overwrite exactly. -/
def constraints_lowerbound (N : ℕ) (state : Fin 6 → ℝ) (i : ℕ) : ℝ :=
  if i = idxX N then state 0
  else if i = idxY N then state 1
  else if i = idxPsi N then state 2
  else if i = idxV N then state 3
  else if i = idxCTE N then state 4
  else if i = idxEpsi N then state 5
  else 0

/-- Source: the constraint upper bounds of `MPC::Solve` (MPC.cpp lines
195-200, 209-214); identical to the lower bounds. -/
def constraints_upperbound (N : ℕ) (state : Fin 6 → ℝ) (i : ℕ) : ℝ :=
  constraints_lowerbound N state i

/-- Embedding of `CppAD::ipopt::solve_result` as consumed by `MPC::Solve`:
the status (collapsed to the only comparison the source makes,
`solution.status == success`, line 246), the optimal variable vector
`solution.x`, and the objective value `solution.obj_value`. -/
structure solve_result : Type where
  success : Bool
  x : ℕ → ℝ
  obj_value : ℝ

/-- Source: the result extraction of `MPC::Solve` (MPC.cpp lines 245-266).
The solver itself is an opaque external service; `Solve` receives its
`solve_result` and builds the return vector: `solution.x[idxDelta]`, then
`solution.x[idxA]`, then for `t` in `[0, N-1)` the pair
`solution.x[idxX + t + 1]`, `solution.x[idxY + t + 1]`.  Line 246 ANDs
`solution.status == success` into a local `ok` that is never read afterwards,
so the extraction below is performed unconditionally — exactly as in the
source, the returned value does not depend on `solution.success`. -/
def Solve (N : ℕ) (solution : solve_result) : List ℝ :=
  solution.x (idxDelta N) :: solution.x (idxA N) ::
    ((List.range (N - 1)).map
      (fun t => [solution.x (idxX N + t + 1), solution.x (idxY N + t + 1)])).flatten

/-- The spec's `ConfigurationError` kind (spec section 7).  No corresponding
type exists anywhere in the source. -/
inductive ConfigError : Type
  | configurationError
deriving DecidableEq

/-- Source: `MPC::MPC() {}` (MPC.cpp line 135).  The constructor takes no
horizon argument, has an empty body, performs no validation of the global
`N`, and cannot fail; it is embedded as a constant that always returns
success. -/
def MPC_construct : Except ConfigError Unit := Except.ok ()

/-- Modelled from the spec (section 4.2 Reference Model, out-of-scope-free
but restated by claim C5): the cubic reference polynomial evaluated at `x`,
written in Horner form as the spec describes. -/
def specPoly (coeffs : ℕ → ℝ) (x : ℝ) : ℝ :=
  coeffs 0 + x * (coeffs 1 + x * (coeffs 2 + x * coeffs 3))

/-- Modelled from the spec (section 4.2): the first derivative of the cubic
reference polynomial at `x`. -/
def specPolyDeriv (coeffs : ℕ → ℝ) (x : ℝ) : ℝ :=
  coeffs 1 + x * (2 * coeffs 2 + x * (3 * coeffs 3))

/-- Modelled from the spec (section 4.2): `desiredHeading`, the arctangent of
the reference polynomial's first derivative at `x`. -/
noncomputable def specDesiredHeading (coeffs : ℕ → ℝ) (x : ℝ) : ℝ :=
  Real.arctan (specPolyDeriv coeffs x)

/-- Shorthand for the optimization variable of state block `b` at timestep
`t`: the flat-vector entry at `blockIdx b + t`. -/
def varAt (N : ℕ) (vars : ℕ → ℝ) (b : Block) (t : ℕ) : ℝ :=
  vars (blockIdx N b + t)

/-- The model-predicted value for state block `b` at timestep `t ≥ 1`: the
parenthesized expression subtracted from the variable at `t` in each residual
of MPC.cpp lines 122-127, built from the variables at `t - 1` and the
latency-shifted actuators `delta0`, `a0`. -/
noncomputable def predicted (N : ℕ) (coeffs vars : ℕ → ℝ) (b : Block) (t : ℕ) : ℝ :=
  match b with
  | .x => varAt N vars .x (t - 1) + varAt N vars .v (t - 1) * Real.cos (varAt N vars .psi (t - 1)) * dt
  | .y => varAt N vars .y (t - 1) + varAt N vars .v (t - 1) * Real.sin (varAt N vars .psi (t - 1)) * dt
  | .psi => varAt N vars .psi (t - 1) - varAt N vars .v (t - 1) / Lf * delta0 N vars t * dt
  | .v => varAt N vars .v (t - 1) + a0 N vars t * dt
  | .cte => (f0 coeffs (varAt N vars .x (t - 1)) - varAt N vars .y (t - 1))
      + (varAt N vars .v (t - 1) * Real.sin (varAt N vars .epsi (t - 1)) * dt)
  | .epsi => (varAt N vars .psi (t - 1) - psides0 coeffs (varAt N vars .x (t - 1)))
      - varAt N vars .v (t - 1) / Lf * delta0 N vars t * dt

/-! ### Helper lemmas -/

theorem f0_eq_specPoly (coeffs : ℕ → ℝ) (x : ℝ) : f0 coeffs x = specPoly coeffs x := by
  unfold f0 specPoly
  ring

theorem psides0_eq_specDesiredHeading (coeffs : ℕ → ℝ) (x : ℝ) :
    psides0 coeffs x = specDesiredHeading coeffs x := by
  unfold psides0 specDesiredHeading specPolyDeriv
  congr 1
  ring

theorem range_foldl_add3 (g1 g2 g3 : ℕ → ℝ) (init : ℝ) (n : ℕ) :
    (List.range n).foldl (fun acc t => acc + g1 t + g2 t + g3 t) init
      = init + ∑ t ∈ Finset.range n, (g1 t + g2 t + g3 t) := by
  induction n with
  | zero => simp
  | succ n ih =>
    rw [List.range_succ, List.foldl_append, ih, List.foldl_cons, List.foldl_nil,
      Finset.sum_range_succ]
    ring

theorem range_foldl_add2 (g1 g2 : ℕ → ℝ) (init : ℝ) (n : ℕ) :
    (List.range n).foldl (fun acc t => acc + g1 t + g2 t) init
      = init + ∑ t ∈ Finset.range n, (g1 t + g2 t) := by
  induction n with
  | zero => simp
  | succ n ih =>
    rw [List.range_succ, List.foldl_append, ih, List.foldl_cons, List.foldl_nil,
      Finset.sum_range_succ]
    ring

theorem pairlist_length (u v : ℕ → ℝ) (n : ℕ) :
    (((List.range n).map (fun t => [u t, v t])).flatten).length = 2 * n := by
  induction n with
  | zero => simp
  | succ n ih =>
    rw [List.range_succ, List.map_append, List.flatten_append, List.length_append, ih]
    simp
    omega

theorem pairlist_get (u v : ℕ → ℝ) (n k : ℕ) (hk : k < n) :
    (((List.range n).map (fun t => [u t, v t])).flatten).get? (2 * k) = some (u k)
    ∧ (((List.range n).map (fun t => [u t, v t])).flatten).get? (2 * k + 1) = some (v k) := by
  induction n with
  | zero => omega
  | succ n ih =>
    rw [List.range_succ, List.map_append, List.flatten_append]
    rcases Nat.lt_or_ge k n with h | h
    · have hlen : (((List.range n).map (fun t => [u t, v t])).flatten).length = 2 * n :=
        pairlist_length u v n
      constructor
      · rw [List.get?_append (by omega)]
        exact (ih h).1
      · rw [List.get?_append (by omega)]
        exact (ih h).2
    · have hk' : k = n := by omega
      have hlen : (((List.range n).map (fun t => [u t, v t])).flatten).length = 2 * n :=
        pairlist_length u v n
      constructor
      · rw [List.get?_append_right (by omega)]
        rw [hlen, hk']
        have h0 : 2 * n - 2 * n = 0 := by omega
        rw [h0]
        simp
      · rw [List.get?_append_right (by omega)]
        rw [hlen, hk']
        have h1 : 2 * n + 1 - 2 * n = 1 := by omega
        rw [h1]
        simp

/-! ### Claim C2 -/

/-- Claim C2 (code bug witnessed): `MPC::Solve` does NOT surface a
non-success solver status distinctly from success.  Line 246 ANDs the status
into a local `ok` that is never read, and lines 257-266 extract actuator and
trajectory values from `solution.x` unconditionally; the returned vector is
byte-for-byte the same whether the solver reported success or failure, and it
does begin with the actuator values taken from the failed optimization. -/
theorem C2_failure_not_surfaced (N : ℕ) (x : ℕ → ℝ) (c : ℝ) :
    Solve N ⟨false, x, c⟩ = Solve N ⟨true, x, c⟩
    ∧ (Solve N ⟨false, x, c⟩).get? 0 = some (x (idxDelta N))
    ∧ (Solve N ⟨false, x, c⟩).get? 1 = some (x (idxA N)) :=
  ⟨rfl, rfl, rfl⟩

/-! ### Claim C8 -/

/-- Claim C8 (code bug witnessed): no horizon validation happens at
construction.  The constructor `MPC::MPC() {}` has an empty body and always
succeeds, no `ConfigurationError` (or any error path) exists anywhere in the
source, and the horizon length is the module-level global `N = 10`, never
checked against the `N ≥ 2` requirement. -/
theorem C8_no_construction_validation :
    MPC_construct = Except.ok () ∧ N = 10 :=
  ⟨rfl, rfl⟩

/-! ### Claim C4 -/

/-- Claim C4 (confirmed): in the dynamics constraints, the actuator pair
`(delta0, a0)` used in the model equations is taken from actuator index
`t - 2` for every `t > 1` and from index `0` for `t = 1`; in particular at
`t = 2` it comes from index `0`, and is independent of actuator index `1`
(shown via `Function.update`).  The last conjunct ties the selection into an
actual residual: for `t > 1` the `v`-block residual reads acceleration
index `t - 2`. -/
theorem C4_latency_selection (N : ℕ) (coeffs vars : ℕ → ℝ) (t : ℕ) :
    (1 < t → delta0 N vars t = vars (idxDelta N + (t - 2))
      ∧ a0 N vars t = vars (idxA N + (t - 2)))
    ∧ (t = 1 → delta0 N vars t = vars (idxDelta N + 0)
      ∧ a0 N vars t = vars (idxA N + 0))
    ∧ (delta0 N vars 2 = vars (idxDelta N + 0) ∧ a0 N vars 2 = vars (idxA N + 0))
    ∧ (∀ w, delta0 N (Function.update vars (idxDelta N + 1) w) 2 = delta0 N vars 2)
    ∧ (∀ w, a0 N (Function.update vars (idxA N + 1) w) 2 = a0 N vars 2)
    ∧ (1 < t → dynResidual N coeffs vars Block.v t
        = vars (idxV N + t) - (vars (idxV N + (t - 1)) + vars (idxA N + (t - 2)) * dt)) := by
  refine ⟨?_, ?_, ?_, ?_, ?_, ?_⟩
  · intro ht
    simp [delta0, a0, ht]
  · intro ht
    subst ht
    simp [delta0, a0]
  · simp [delta0, a0]
  · intro w
    simp [delta0]
  · intro w
    simp [a0]
  · intro ht
    simp [dynResidual, a0, ht]

/-- Witness for C4 at `N = 10`, `t = 2`, all-zero variables: the implication
hypotheses are discharged at the concrete input. -/
theorem C4_latency_selection_witness :
    delta0 10 (fun _ => 0) 2 = (0 : ℝ) ∧ a0 10 (fun _ => 0) 2 = (0 : ℝ) :=
  (C4_latency_selection 10 (fun _ => 0) (fun _ => 0) 2).2.2.1

/-! ### Claim C5 -/

/-- Claim C5 (confirmed): for every `t` in `[1, N)` the predicted values
used in the dynamics constraints are exactly those of the spec's discrete
kinematic bicycle model: each residual is the variable at `t` minus the
model expression built from the variables at `t - 1`, with `f` the cubic
reference polynomial at `x(t-1)` (spec's Horner form) and `psides` the
arctangent of its first derivative there, and with the actuator pair
`(delta0, a0)` selected by the latency rule of claim C4. -/
theorem C5_model_equations (N : ℕ) (coeffs vars : ℕ → ℝ) (t : ℕ)
    (ht : 1 ≤ t) (htN : t < N) :
    dynResidual N coeffs vars Block.x t
      = vars (idxX N + t) - (vars (idxX N + (t - 1))
        + vars (idxV N + (t - 1)) * Real.cos (vars (idxPsi N + (t - 1))) * dt)
    ∧ dynResidual N coeffs vars Block.y t
      = vars (idxY N + t) - (vars (idxY N + (t - 1))
        + vars (idxV N + (t - 1)) * Real.sin (vars (idxPsi N + (t - 1))) * dt)
    ∧ dynResidual N coeffs vars Block.psi t
      = vars (idxPsi N + t) - (vars (idxPsi N + (t - 1))
        - vars (idxV N + (t - 1)) / Lf * delta0 N vars t * dt)
    ∧ dynResidual N coeffs vars Block.v t
      = vars (idxV N + t) - (vars (idxV N + (t - 1)) + a0 N vars t * dt)
    ∧ dynResidual N coeffs vars Block.cte t
      = vars (idxCTE N + t)
        - ((specPoly coeffs (vars (idxX N + (t - 1))) - vars (idxY N + (t - 1)))
          + (vars (idxV N + (t - 1)) * Real.sin (vars (idxEpsi N + (t - 1))) * dt))
    ∧ dynResidual N coeffs vars Block.epsi t
      = vars (idxEpsi N + t)
        - ((vars (idxPsi N + (t - 1)) - specDesiredHeading coeffs (vars (idxX N + (t - 1))))
          - vars (idxV N + (t - 1)) / Lf * delta0 N vars t * dt) := by
  refine ⟨rfl, rfl, rfl, rfl, ?_, ?_⟩
  · simp only [dynResidual, f0_eq_specPoly]
  · simp only [dynResidual, psides0_eq_specDesiredHeading]

/-- Witness for C5 at `N = 10`, `t = 1`, all-zero variables and
coefficients. -/
theorem C5_model_equations_witness :
    dynResidual 10 (fun _ => 0) (fun _ => 0) Block.x 1
      = (0 : ℝ) - (0 + 0 * Real.cos 0 * dt) :=
  (C5_model_equations 10 (fun _ => 0) (fun _ => 0) 1 (by norm_num) (by norm_num)).1

/-! ### Claim C6 -/

/-- Claim C6 (confirmed): the scalar cost `fg[0]` equals the weighted sum of
exactly the claimed terms and index ranges: tracking terms (weights 800, 800,
1) for `t` in `[0, N)`, effort terms (weights 450, 20, 1) for `t` in
`[0, N-1)`, and smoothness terms (weights 1, 1) for `t` in `[0, N-2)`, with
reference speed `ref_v`. -/
theorem C6_cost_decomposition (N : ℕ) (vars : ℕ → ℝ) :
    cost N vars
      = (∑ t ∈ Finset.range N,
          (800 * vars (idxCTE N + t) ^ 2 + 800 * vars (idxEpsi N + t) ^ 2
            + 1 * (vars (idxV N + t) - ref_v) ^ 2))
        + (∑ t ∈ Finset.range (N - 1),
          (450 * (vars (idxDelta N + t) * vars (idxV N + t)) ^ 2
            + 20 * vars (idxDelta N + t) ^ 2 + 1 * vars (idxA N + t) ^ 2))
        + (∑ t ∈ Finset.range (N - 2),
          (1 * (vars (idxDelta N + t + 1) - vars (idxDelta N + t)) ^ 2
            + 1 * (vars (idxA N + t + 1) - vars (idxA N + t)) ^ 2)) := by
  unfold cost
  rw [range_foldl_add3 (fun t => 800 * vars (idxCTE N + t) ^ 2)
    (fun t => 800 * vars (idxEpsi N + t) ^ 2)
    (fun t => 1 * (vars (idxV N + t) - ref_v) ^ 2) 0 N]
  rw [range_foldl_add3 (fun t => 450 * (vars (idxDelta N + t) * vars (idxV N + t)) ^ 2)
    (fun t => 20 * vars (idxDelta N + t) ^ 2)
    (fun t => 1 * vars (idxA N + t) ^ 2) _ (N - 1)]
  rw [range_foldl_add2 (fun t => 1 * (vars (idxDelta N + t + 1) - vars (idxDelta N + t)) ^ 2)
    (fun t => 1 * (vars (idxA N + t + 1) - vars (idxA N + t)) ^ 2) _ (N - 2)]
  ring

/-! ### Claim C1 -/

/-- Helper: for `N ≥ 1` the six `t = 0` constraint-bound entries evaluate to
the matching component of the supplied state. -/
theorem constraints_lowerbound_at_block (N : ℕ) (hN : 1 ≤ N) (st : Fin 6 → ℝ) (b : Block) :
    constraints_lowerbound N st (blockIdx N b) = st (stateIdx b) := by
  cases b <;>
    simp only [constraints_lowerbound, blockIdx, stateIdx, idxX_eq, idxY_eq, idxPsi_eq,
      idxV_eq, idxCTE_eq, idxEpsi_eq] <;>
    split_ifs <;> first | rfl | omega

/-- Claim C1, counterexample to the claim as stated.  Take `N = 10`, all-zero
coefficients, a variable vector whose only nonzero entry is `v` at `t = 0`
(value 1), and initial state with `v = 1`.  The claimed entry value
`variable(v,0) − initial_state(v) = 0` is strictly below the actual
constraint-vector entry, which is `variable(v,0) = 1` (MPC.cpp line 87 stores
the variable itself, not a difference); consequently at the optimum — where
the entry is pinned between the two constraint bounds, both equal to the true
state value (second and third conjuncts) — the entry equals `1`, not zero. -/
theorem C1_counterexample :
    (fun i => if i = idxV 10 then (1 : ℝ) else 0) (idxV 10) - 1
      < fgConstraint 10 (fun _ => 0) (fun i => if i = idxV 10 then (1 : ℝ) else 0) Block.v 0
    ∧ constraints_lowerbound 10 (fun j => if j = 3 then (1 : ℝ) else 0) (idxV 10) = 1
    ∧ constraints_upperbound 10 (fun j => if j = 3 then (1 : ℝ) else 0) (idxV 10) = 1 := by
  refine ⟨?_, ?_, ?_⟩
  · norm_num [fgConstraint, blockIdx]
  · norm_num [constraints_lowerbound, idxX, idxY, idxPsi, idxV, idxCTE, idxEpsi]
  · norm_num [constraints_upperbound, constraints_lowerbound, idxX, idxY, idxPsi, idxV,
      idxCTE, idxEpsi]

/-- Claim C1 as amended (proved): for every state block `b` the constraint
entry at `t = 0` equals `variable(b,0)` itself (not the difference
`variable − state`); the pin is enforced by setting both constraint bounds at
that index to the true state component, so whenever the entry lies between
those bounds — as at any feasible/optimal point — it equals the state
component and `variable(b,0) − initial_state(b) = 0`. -/
theorem C1_t0_pin (N : ℕ) (hN : 1 ≤ N) (coeffs vars : ℕ → ℝ) (st : Fin 6 → ℝ) (b : Block) :
    fgConstraint N coeffs vars b 0 = vars (blockIdx N b)
    ∧ constraints_lowerbound N st (blockIdx N b) = st (stateIdx b)
    ∧ constraints_upperbound N st (blockIdx N b) = st (stateIdx b)
    ∧ (constraints_lowerbound N st (blockIdx N b) ≤ fgConstraint N coeffs vars b 0 →
        fgConstraint N coeffs vars b 0 ≤ constraints_upperbound N st (blockIdx N b) →
        fgConstraint N coeffs vars b 0 = st (stateIdx b)
        ∧ vars (blockIdx N b) - st (stateIdx b) = 0) := by
  have hfg : fgConstraint N coeffs vars b 0 = vars (blockIdx N b) := by
    simp [fgConstraint]
  have hlo := constraints_lowerbound_at_block N hN st b
  have hup : constraints_upperbound N st (blockIdx N b) = st (stateIdx b) := by
    rw [constraints_upperbound]
    exact hlo
  refine ⟨hfg, hlo, hup, ?_⟩
  intro h1 h2
  rw [hlo] at h1
  rw [hup] at h2
  have hpin : fgConstraint N coeffs vars b 0 = st (stateIdx b) := le_antisymm h2 h1
  refine ⟨hpin, ?_⟩
  rw [← hfg, hpin]
  ring

/-- Witness for C1's amended theorem at `N = 10`, `b = v`, all-zero inputs. -/
theorem C1_t0_pin_witness :
    fgConstraint 10 (fun _ => 0) (fun _ => 0) Block.v 0 = (0 : ℝ) :=
  (C1_t0_pin 10 (by norm_num) (fun _ => 0) (fun _ => 0) (fun _ => 0) Block.v).1

/-! ### Claim C3 -/

/-- Claim C3, counterexample to the claim as stated.  Take `N = 10`, zero
coefficients, and a variable vector whose only nonzero entry is acceleration
index 0 (value 1).  For the `v` block at `t = 1` the stored residual is
`v(1) − (v(0) + a·dt) = −0.1`, which is strictly below the claimed value
`predicted − actual = +0.1`: the code stores `actual − predicted`, the
negation of what the claim states. -/
theorem C3_counterexample :
    fgConstraint 10 (fun _ => 0) (fun i => if i = idxA 10 then (1 : ℝ) else 0) Block.v 1
      < predicted 10 (fun _ => 0) (fun i => if i = idxA 10 then (1 : ℝ) else 0) Block.v 1
        - varAt 10 (fun i => if i = idxA 10 then (1 : ℝ) else 0) Block.v 1 := by
  norm_num [fgConstraint, dynResidual, predicted, varAt, a0, delta0, blockIdx,
    idxX, idxY, idxPsi, idxV, idxCTE, idxEpsi, idxDelta, idxA, dt]

/-- Claim C3 as amended (proved): for every timestep `t` in `[1, N)` and
every state block, the residual stored at the corresponding constraint index
equals `actual_variable_at_t − predicted_value` (the optimization variable at
`t` minus the model-predicted next value) — the negation of the claimed
orientation; with both solver bounds zero this encodes the same equality
constraint. -/
theorem C3_residual_orientation (N : ℕ) (coeffs vars : ℕ → ℝ) (b : Block) (t : ℕ)
    (ht : 1 ≤ t) (htN : t < N) :
    fgConstraint N coeffs vars b t = varAt N vars b t - predicted N coeffs vars b t := by
  have ht0 : t ≠ 0 := by omega
  cases b <;> simp [fgConstraint, ht0, dynResidual, predicted, varAt, blockIdx]

/-- Witness for C3's amended theorem at `N = 10`, `t = 1`, `b = v`,
all-zero inputs. -/
theorem C3_residual_orientation_witness :
    fgConstraint 10 (fun _ => 0) (fun _ => 0) Block.v 1
      = varAt 10 (fun _ => 0) Block.v 1 - predicted 10 (fun _ => 0) (fun _ => 0) Block.v 1 :=
  C3_residual_orientation 10 (fun _ => 0) (fun _ => 0) Block.v 1 (by norm_num) (by norm_num)

/-! ### Claim C9 -/

/-- Claim C9 (confirmed): for every call — whatever the solver status — the
return vector of `MPC::Solve` has length `2 + 2(N-1)`, begins with the
solver's `delta` and `a` at actuator index 0, and continues with the
predicted positions `(x1,y1), …, (x(N-1),y(N-1))` interleaved: for `t` in
`[1, N)` the entry at position `2t` is `x(t)` and at `2t + 1` is `y(t)`. -/
theorem C9_output_contract (N : ℕ) (solution : solve_result) :
    (Solve N solution).length = 2 + 2 * (N - 1)
    ∧ (Solve N solution).get? 0 = some (solution.x (idxDelta N))
    ∧ (Solve N solution).get? 1 = some (solution.x (idxA N))
    ∧ ∀ t, 1 ≤ t → t < N →
        (Solve N solution).get? (2 * t) = some (solution.x (idxX N + t))
        ∧ (Solve N solution).get? (2 * t + 1) = some (solution.x (idxY N + t)) := by
  refine ⟨?_, rfl, rfl, ?_⟩
  · rw [Solve]
    simp only [List.length_cons]
    rw [pairlist_length (fun t => solution.x (idxX N + t + 1))
      (fun t => solution.x (idxY N + t + 1)) (N - 1)]
    omega
  · intro t ht htN
    have hk : t - 1 < N - 1 := by omega
    have hget := pairlist_get (fun s => solution.x (idxX N + s + 1))
      (fun s => solution.x (idxY N + s + 1)) (N - 1) (t - 1) hk
    have hidx : idxX N + (t - 1) + 1 = idxX N + t := by omega
    have hidy : idxY N + (t - 1) + 1 = idxY N + t := by omega
    simp only [] at hget
    rw [hidx] at hget
    rw [hidy] at hget
    have h2t : 2 * t = 2 * (t - 1) + 1 + 1 := by omega
    have h2t1 : 2 * t + 1 = 2 * (t - 1) + 1 + 1 + 1 := by omega
    constructor
    · rw [h2t, Solve, List.get?_cons_succ, List.get?_cons_succ]
      exact hget.1
    · rw [h2t1, Solve, List.get?_cons_succ, List.get?_cons_succ]
      exact hget.2

/-- Witness for C9 at `N = 3` and an all-zero solver result (the inner
implications are discharged at `t = 1`). -/
theorem C9_output_contract_witness :
    (Solve 3 ⟨true, fun _ => 0, 0⟩).length = 2 + 2 * (3 - 1)
    ∧ (Solve 3 ⟨true, fun _ => 0, 0⟩).get? 2 = some ((0 : ℝ))
    ∧ (Solve 3 ⟨true, fun _ => 0, 0⟩).get? 3 = some ((0 : ℝ)) := by
  have h := C9_output_contract 3 ⟨true, fun _ => 0, 0⟩
  have h1 := h.2.2.2 1 (by norm_num) (by norm_num)
  exact ⟨h.1, h1.1, h1.2⟩

/-! ### Claim C7 -/

/-- Claim C7 (confirmed): the variable bounds built by `MPC::Solve` are
constant per block — `±1e23` for every state-block index (the sentinel the
opaque solver treats as unconstrained), `[-0.436332, 0.436332]` for every
steering index and `[-1, 1]` for every acceleration index — and consequently,
for any successful solve whose solution respects those bounds (the external
solver's contract), the returned steering command (output entry 0) lies in
`[-0.436332, 0.436332]` and the returned acceleration command (entry 1) lies
in `[-1, 1]`. -/
theorem C7_bounds (N : ℕ) (hN : 2 ≤ N) (solution : solve_result)
    (hsucc : solution.success = true)
    (hx : ∀ i, i < n_vars N →
      vars_lowerbound N i ≤ solution.x i ∧ solution.x i ≤ vars_upperbound N i) :
    (∀ i, i < idxDelta N → vars_lowerbound N i = -1e23 ∧ vars_upperbound N i = 1e23)
    ∧ (∀ i, idxDelta N ≤ i → i < idxA N →
        vars_lowerbound N i = -0.436332 ∧ vars_upperbound N i = 0.436332)
    ∧ (∀ i, idxA N ≤ i →
        vars_lowerbound N i = -1 ∧ vars_upperbound N i = 1)
    ∧ ((Solve N solution).get? 0 = some (solution.x (idxDelta N))
        ∧ -0.436332 ≤ solution.x (idxDelta N) ∧ solution.x (idxDelta N) ≤ 0.436332)
    ∧ ((Solve N solution).get? 1 = some (solution.x (idxA N))
        ∧ -1 ≤ solution.x (idxA N) ∧ solution.x (idxA N) ≤ 1) := by
  have hDlt : idxDelta N < idxA N := by
    rw [idxDelta_eq, idxA_eq]
    omega
  have hDn : idxDelta N < n_vars N := by
    rw [idxDelta_eq]
    unfold n_vars
    omega
  have hAn : idxA N < n_vars N := by
    rw [idxA_eq]
    unfold n_vars
    omega
  refine ⟨?_, ?_, ?_, ?_, ?_⟩
  · intro i hi
    constructor <;> simp [vars_lowerbound, vars_upperbound, if_pos hi]
  · intro i h1 h2
    have hn1 : ¬ i < idxDelta N := by omega
    constructor <;> simp [vars_lowerbound, vars_upperbound, if_neg hn1, if_pos h2]
  · intro i h1
    have hn1 : ¬ i < idxDelta N := by omega
    have hn2 : ¬ i < idxA N := by omega
    constructor <;> simp [vars_lowerbound, vars_upperbound, if_neg hn1, if_neg hn2]
  · obtain ⟨hlo, hup⟩ := hx (idxDelta N) hDn
    have hblo : vars_lowerbound N (idxDelta N) = -0.436332 := by
      simp [vars_lowerbound, if_neg (lt_irrefl (idxDelta N)), if_pos hDlt]
    have hbup : vars_upperbound N (idxDelta N) = 0.436332 := by
      simp [vars_upperbound, if_neg (lt_irrefl (idxDelta N)), if_pos hDlt]
    rw [hblo] at hlo
    rw [hbup] at hup
    exact ⟨rfl, hlo, hup⟩
  · obtain ⟨hlo, hup⟩ := hx (idxA N) hAn
    have hnd : ¬ idxA N < idxDelta N := by omega
    have hblo : vars_lowerbound N (idxA N) = -1 := by
      simp [vars_lowerbound, if_neg hnd, if_neg (lt_irrefl (idxA N))]
    have hbup : vars_upperbound N (idxA N) = 1 := by
      simp [vars_upperbound, if_neg hnd, if_neg (lt_irrefl (idxA N))]
    rw [hblo] at hlo
    rw [hbup] at hup
    exact ⟨rfl, hlo, hup⟩

/-- Witness for C7 at `N = 2` with a successful all-zero solver result. -/
theorem C7_bounds_witness :
    (Solve 2 ⟨true, fun _ => 0, 0⟩).get? 0 = some ((0 : ℝ))
    ∧ -0.436332 ≤ (0 : ℝ) ∧ (0 : ℝ) ≤ 0.436332 :=
  (C7_bounds 2 (by norm_num) ⟨true, fun _ => 0, 0⟩ rfl
    (fun i _ => by
      constructor <;>
        simp only [vars_lowerbound, vars_upperbound] <;>
        split_ifs <;> norm_num)).2.2.2.1

/-! ### Claim C10 -/

/-- Helper: the latency-shifted steering read `delta0` only touches actuator
indices `idxDelta + k` with `k = 0` or `k + 2 < N`, so it is unchanged
between two variable vectors agreeing there. -/
theorem delta0_congr (N : ℕ) (vars vars2 : ℕ → ℝ) (t : ℕ) (ht : 1 ≤ t) (htN : t < N)
    (h : ∀ k, k = 0 ∨ k + 2 < N → vars (idxDelta N + k) = vars2 (idxDelta N + k)) :
    delta0 N vars t = delta0 N vars2 t := by
  unfold delta0
  split_ifs with h1
  · exact h (t - 2) (by omega)
  · have ht1 : t - 1 = 0 := by omega
    rw [ht1]
    exact h 0 (Or.inl rfl)

/-- Helper: same as `delta0_congr` for the acceleration read `a0`. -/
theorem a0_congr (N : ℕ) (vars vars2 : ℕ → ℝ) (t : ℕ) (ht : 1 ≤ t) (htN : t < N)
    (h : ∀ k, k = 0 ∨ k + 2 < N → vars (idxA N + k) = vars2 (idxA N + k)) :
    a0 N vars t = a0 N vars2 t := by
  unfold a0
  split_ifs with h1
  · exact h (t - 2) (by omega)
  · have ht1 : t - 1 = 0 := by omega
    rw [ht1]
    exact h 0 (Or.inl rfl)

/-- Helper: the constraint entry for block `b` at timestep `t < N` reads the
variable vector only at state indices below `idxDelta = 6N` and at actuator
indices `idxDelta + k` / `idxA + k` with `k = 0` or `k + 2 < N`; two variable
vectors agreeing there produce the same entry. -/
theorem fgConstraint_congr (N : ℕ) (coeffs vars vars2 : ℕ → ℝ) (b : Block) (t : ℕ)
    (htN : t < N)
    (hstate : ∀ i, i < 6 * N → vars i = vars2 i)
    (hdelta : ∀ k, k = 0 ∨ k + 2 < N → vars (idxDelta N + k) = vars2 (idxDelta N + k))
    (ha : ∀ k, k = 0 ∨ k + 2 < N → vars (idxA N + k) = vars2 (idxA N + k)) :
    fgConstraint N coeffs vars b t = fgConstraint N coeffs vars2 b t := by
  unfold fgConstraint
  split_ifs with h0
  · apply hstate
    cases b <;>
      simp only [blockIdx, idxX_eq, idxY_eq, idxPsi_eq, idxV_eq, idxCTE_eq, idxEpsi_eq] <;>
      omega
  · have ht1 : 1 ≤ t := by omega
    have hd := delta0_congr N vars vars2 t ht1 htN hdelta
    have hA := a0_congr N vars vars2 t ht1 htN ha
    have hx0 : vars (idxX N + (t - 1)) = vars2 (idxX N + (t - 1)) := by
      apply hstate
      rw [idxX_eq]
      omega
    have hy0 : vars (idxY N + (t - 1)) = vars2 (idxY N + (t - 1)) := by
      apply hstate
      rw [idxY_eq]
      omega
    have hpsi0 : vars (idxPsi N + (t - 1)) = vars2 (idxPsi N + (t - 1)) := by
      apply hstate
      rw [idxPsi_eq]
      omega
    have hv0 : vars (idxV N + (t - 1)) = vars2 (idxV N + (t - 1)) := by
      apply hstate
      rw [idxV_eq]
      omega
    have hepsi0 : vars (idxEpsi N + (t - 1)) = vars2 (idxEpsi N + (t - 1)) := by
      apply hstate
      rw [idxEpsi_eq]
      omega
    have hx1 : vars (idxX N + t) = vars2 (idxX N + t) := by
      apply hstate
      rw [idxX_eq]
      omega
    have hy1 : vars (idxY N + t) = vars2 (idxY N + t) := by
      apply hstate
      rw [idxY_eq]
      omega
    have hpsi1 : vars (idxPsi N + t) = vars2 (idxPsi N + t) := by
      apply hstate
      rw [idxPsi_eq]
      omega
    have hv1 : vars (idxV N + t) = vars2 (idxV N + t) := by
      apply hstate
      rw [idxV_eq]
      omega
    have hcte1 : vars (idxCTE N + t) = vars2 (idxCTE N + t) := by
      apply hstate
      rw [idxCTE_eq]
      omega
    have hepsi1 : vars (idxEpsi N + t) = vars2 (idxEpsi N + t) := by
      apply hstate
      rw [idxEpsi_eq]
      omega
    cases b
    · simp only [dynResidual]
      rw [hx1, hx0, hv0, hpsi0]
    · simp only [dynResidual]
      rw [hy1, hy0, hv0, hpsi0]
    · simp only [dynResidual]
      rw [hpsi1, hpsi0, hv0, hd]
    · simp only [dynResidual]
      rw [hv1, hv0, hA]
    · simp only [dynResidual]
      rw [hcte1, hx0, hy0, hv0, hepsi0]
    · simp only [dynResidual]
      rw [hepsi1, hpsi0, hx0, hv0, hd]

/-- Claim C10 (confirmed): for every `N ≥ 3`, two variable vectors that
differ only in the last actuator pair (steering index `N-2`, i.e. flat index
`idxDelta + (N-2)`, and acceleration index `N-2`, i.e. flat index
`idxA + (N-2)`) produce identical constraint entries `fg[1 .. 6N]`: the
latency shift makes the dynamics read only actuator indices `0 .. N-3`, so
the final actuator pair can influence the cost term alone. -/
theorem C10_last_actuator_pair_inert (N : ℕ) (hN : 3 ≤ N) (coeffs vars vars2 : ℕ → ℝ)
    (hagree : ∀ i, i ≠ idxDelta N + (N - 2) → i ≠ idxA N + (N - 2) → vars i = vars2 i) :
    ∀ b t, t < N → fgConstraint N coeffs vars b t = fgConstraint N coeffs vars2 b t := by
  intro b t ht
  apply fgConstraint_congr N coeffs vars vars2 b t ht
  · intro i hi
    apply hagree <;> simp only [idxDelta_eq, idxA_eq] <;> omega
  · intro k hk
    apply hagree <;> simp only [idxDelta_eq, idxA_eq] <;> omega
  · intro k hk
    apply hagree <;> simp only [idxDelta_eq, idxA_eq] <;> omega

/-- Witness for C10 at `N = 3`, block `v`, `t = 2`, with an all-zero vector
against one perturbed exactly at the last actuator pair (flat indices 19
and 21). -/
theorem C10_last_actuator_pair_inert_witness :
    fgConstraint 3 (fun _ => 0) (fun _ => 0) Block.v 2
      = fgConstraint 3 (fun _ => 0)
          (fun i => if i = 19 then 5 else if i = 21 then 7 else 0) Block.v 2 :=
  C10_last_actuator_pair_inert 3 (by norm_num) (fun _ => 0) (fun _ => 0)
    (fun i => if i = 19 then 5 else if i = 21 then 7 else 0)
    (fun i h1 h2 => by
      have hi1 : i ≠ 19 := by
        simpa [idxDelta, idxEpsi, idxCTE, idxV, idxPsi, idxY, idxX] using h1
      have hi2 : i ≠ 21 := by
        simpa [idxA, idxDelta, idxEpsi, idxCTE, idxV, idxPsi, idxY, idxX] using h2
      simp [hi1, hi2])
    Block.v 2 (by norm_num)
